import Mathlib

/-!
# Verification of the vivarium simulation kernel against its specification

Shallow embedding of `ceam/framework/engine.py` and
`ceam/modules/opportunistic_screening.py`, with spec-modelled definitions
for framework modules whose source is not in the repository snapshot
(`ceam/framework/values.py`, `ceam/framework/lookup.py`).
-/

namespace Vivarium

/-! ## Opportunistic screening module (`ceam/modules/opportunistic_screening.py`) -/

/-- One entry of the `MEDICATIONS` list: `name`, `daily_cost`, `efficacy`. -/
structure Medication where
  name : String
  daily_cost : ℚ
  efficacy : ℚ
deriving Repr, DecidableEq

/-- The module-level `MEDICATIONS` constant. -/
def MEDICATIONS : List Medication :=
  [ { name := "Thiazide-type diuretics", daily_cost := 9/1000, efficacy := 88/10 },
    { name := "Calcium-channel blockers", daily_cost := 166/1000, efficacy := 88/10 },
    { name := "ACE Inhibitors", daily_cost := 59/1000, efficacy := 103/10 },
    { name := "Beta blockers", daily_cost := 48/1000, efficacy := 92/10 } ]

/-- A row of the population table, restricted to the columns
`_hypertensive_categories` and the screening handlers read:
`age` and `systolic_blood_pressure`. -/
structure Row where
  age : ℚ
  systolic_blood_pressure : ℚ
deriving Repr, DecidableEq

/-- `under_60 & under_140 | over_60 & under_150` from `_hypertensive_categories`. -/
def normotensive (r : Row) : Bool :=
  (decide (r.age < 60) && decide (r.systolic_blood_pressure < 140)) ||
  (decide (r.age ≥ 60) && decide (r.systolic_blood_pressure < 150))

/-- `under_60 & ~under_140 & under_180 | over_60 & ~under_150 & under_180`
from `_hypertensive_categories`. -/
def hypertensive (r : Row) : Bool :=
  (decide (r.age < 60) && !(decide (r.systolic_blood_pressure < 140)) &&
     decide (r.systolic_blood_pressure < 180)) ||
  (decide (r.age ≥ 60) && !(decide (r.systolic_blood_pressure < 150)) &&
     decide (r.systolic_blood_pressure < 180))

/-- `~under_180` from `_hypertensive_categories`. -/
def severe_hypertension (r : Row) : Bool :=
  !(decide (r.systolic_blood_pressure < 180))

/-- `_hypertensive_categories(population)`: the three `population.loc[mask]`
subtables, as filters of the row list. -/
def hypertensive_categories (population : List Row) :
    List Row × List Row × List Row :=
  (population.filter normotensive,
   population.filter hypertensive,
   population.filter severe_hypertension)

/-- Per-simulant effect of `non_followup_blood_pressure_test` on the
`medication_count` column: severe hypertensives get
`np.minimum(medication_count + 2, len(MEDICATIONS))`; everyone else is
unchanged.  `age`/`systolic_blood_pressure` are the row values at event time. -/
def non_followup_blood_pressure_test (r : Row) (medication_count : ℤ) : ℤ :=
  if severe_hypertension r then
    min (medication_count + 2) (MEDICATIONS.length : ℤ)
  else medication_count

/-- Per-simulant effect of `followup_blood_pressure_test` on the
`medication_count` column: hypertensives get
`np.minimum(medication_count + 1, len(MEDICATIONS))`, severe hypertensives get
`np.minimum(medication_count + 1, len(MEDICATIONS))`; normotensives are
unchanged. -/
def followup_blood_pressure_test (r : Row) (medication_count : ℤ) : ℤ :=
  if hypertensive r then
    min (medication_count + 1) (MEDICATIONS.length : ℤ)
  else if severe_hypertension r then
    min (medication_count + 1) (MEDICATIONS.length : ℤ)
  else medication_count

/-- The two opportunistic-screening event handlers that touch
`medication_count`. -/
inductive ScreeningEvent where
  | nonFollowup
  | followup
deriving Repr, DecidableEq

/-- Apply one screening event handler to one simulant's `medication_count`,
given the simulant's row values (`age`, `systolic_blood_pressure`) at the
time the event fires. -/
def applyScreeningEvent (e : ScreeningEvent) (r : Row) (medication_count : ℤ) : ℤ :=
  match e with
  | .nonFollowup => non_followup_blood_pressure_test r medication_count
  | .followup => followup_blood_pressure_test r medication_count

/-- `load_population_columns` initial value of the `medication_count`
column: `[0]*population_size`. -/
def load_population_medication_count : ℤ := 0

/-- Fold a sequence of screening events (each with the row values current at
that event) over a simulant's `medication_count`. -/
def runScreeningEvents (events : List (ScreeningEvent × Row)) (medication_count : ℤ) : ℤ :=
  events.foldl (fun m er => applyScreeningEvent er.1 er.2 m) medication_count

lemma medications_length : (MEDICATIONS.length : ℤ) = 4 := by decide

lemma applyScreeningEvent_mono (e : ScreeningEvent) (r : Row) (m : ℤ)
    (hm : m ≤ 4) : m ≤ applyScreeningEvent e r m := by
  cases e <;>
    simp only [applyScreeningEvent, non_followup_blood_pressure_test,
      followup_blood_pressure_test, medications_length] <;>
    split_ifs <;> omega

lemma applyScreeningEvent_bounds (e : ScreeningEvent) (r : Row) (m : ℤ)
    (h0 : 0 ≤ m) (h4 : m ≤ 4) :
    0 ≤ applyScreeningEvent e r m ∧ applyScreeningEvent e r m ≤ 4 := by
  cases e <;>
    simp only [applyScreeningEvent, non_followup_blood_pressure_test,
      followup_blood_pressure_test, medications_length] <;>
    split_ifs <;> omega

lemma runScreeningEvents_invariant (events : List (ScreeningEvent × Row)) (m : ℤ)
    (h0 : 0 ≤ m) (h4 : m ≤ 4) :
    0 ≤ runScreeningEvents events m ∧ runScreeningEvents events m ≤ 4 := by
  induction events generalizing m with
  | nil => exact ⟨h0, h4⟩
  | cons er rest ih =>
    have hb := applyScreeningEvent_bounds er.1 er.2 m h0 h4
    simpa [runScreeningEvents] using ih _ hb.1 hb.2

/-- **C9.** The `medication_count` column starts at 0
(`load_population_columns`), and after any sequence of screening event
handlers it stays in `[0, len(MEDICATIONS)] = [0, 4]`; moreover each single
handler application never decreases the count, and never pushes it above
`len(MEDICATIONS)`. -/
theorem medication_count_invariant (events : List (ScreeningEvent × Row)) :
    (0 ≤ runScreeningEvents events load_population_medication_count ∧
      runScreeningEvents events load_population_medication_count ≤ (MEDICATIONS.length : ℤ)) ∧
    (∀ (e : ScreeningEvent) (r : Row) (m : ℤ), 0 ≤ m → m ≤ (MEDICATIONS.length : ℤ) →
      m ≤ applyScreeningEvent e r m ∧ applyScreeningEvent e r m ≤ (MEDICATIONS.length : ℤ)) := by
  constructor
  · have := runScreeningEvents_invariant events 0 le_rfl (by norm_num)
    simpa [load_population_medication_count, medications_length] using this
  · intro e r m h0 h4
    rw [medications_length] at h4 ⊢
    exact ⟨applyScreeningEvent_mono e r m h4, (applyScreeningEvent_bounds e r m h0 h4).2⟩

/-- Witness for C9 at a concrete event sequence. -/
theorem medication_count_invariant_witness :
    (0 ≤ runScreeningEvents
        [(.nonFollowup, ⟨50, 190⟩), (.followup, ⟨50, 185⟩), (.followup, ⟨65, 160⟩)]
        load_population_medication_count ∧
      runScreeningEvents
        [(.nonFollowup, ⟨50, 190⟩), (.followup, ⟨50, 185⟩), (.followup, ⟨65, 160⟩)]
        load_population_medication_count ≤ (MEDICATIONS.length : ℤ)) ∧
    (∀ (e : ScreeningEvent) (r : Row) (m : ℤ), 0 ≤ m → m ≤ (MEDICATIONS.length : ℤ) →
      m ≤ applyScreeningEvent e r m ∧ applyScreeningEvent e r m ≤ (MEDICATIONS.length : ℤ)) :=
  medication_count_invariant
    [(.nonFollowup, ⟨50, 190⟩), (.followup, ⟨50, 185⟩), (.followup, ⟨65, 160⟩)]

lemma category_trichotomy (r : Row) :
    (normotensive r = true ∧ hypertensive r = false ∧ severe_hypertension r = false) ∨
    (normotensive r = false ∧ hypertensive r = true ∧ severe_hypertension r = false) ∨
    (normotensive r = false ∧ hypertensive r = false ∧ severe_hypertension r = true) := by
  simp only [normotensive, hypertensive, severe_hypertension,
    Bool.and_eq_true, Bool.or_eq_true, Bool.not_eq_true', decide_eq_true_eq,
    Bool.and_eq_false_iff, Bool.or_eq_false_iff, Bool.not_eq_false',
    decide_eq_false_iff_not, decide_eq_true_iff, decide_eq_false_iff_not, not_lt]
  rcases lt_or_le r.age 60 with ha | ha <;>
    rcases lt_or_le r.systolic_blood_pressure 140 with h1 | h1 <;>
    rcases lt_or_le r.systolic_blood_pressure 150 with h2 | h2 <;>
    rcases lt_or_le r.systolic_blood_pressure 180 with h3 | h3 <;>
    simp_all
  all_goals try constructor
  all_goals linarith

/-- **C10.** `_hypertensive_categories` partitions the population exactly:
every row lands in exactly one of the three returned subtables
(normotensive: age<60 ∧ sbp<140 or age≥60 ∧ sbp<150; hypertensive: below 180
but at/above the age-dependent threshold; severe: sbp≥180), and the three
filters cover the whole table with no overlap. -/
theorem hypertensive_categories_partition (population : List Row) :
    (∀ r : Row,
      (normotensive r = true ∧ hypertensive r = false ∧ severe_hypertension r = false) ∨
      (normotensive r = false ∧ hypertensive r = true ∧ severe_hypertension r = false) ∨
      (normotensive r = false ∧ hypertensive r = false ∧ severe_hypertension r = true)) ∧
    (hypertensive_categories population).1.length +
      (hypertensive_categories population).2.1.length +
      (hypertensive_categories population).2.2.length = population.length ∧
    (∀ r ∈ population,
      r ∈ (hypertensive_categories population).1 ∨
      r ∈ (hypertensive_categories population).2.1 ∨
      r ∈ (hypertensive_categories population).2.2) := by
  refine ⟨category_trichotomy, ?_, ?_⟩
  · simp only [hypertensive_categories]
    induction population with
    | nil => simp
    | cons r rest ih =>
      rcases category_trichotomy r with ⟨h1, h2, h3⟩ | ⟨h1, h2, h3⟩ | ⟨h1, h2, h3⟩ <;>
        simp [List.filter_cons, h1, h2, h3] <;> omega
  · intro r hr
    rcases category_trichotomy r with ⟨h1, _, _⟩ | ⟨_, h2, _⟩ | ⟨_, _, h3⟩
    · exact Or.inl (List.mem_filter.mpr ⟨hr, h1⟩)
    · exact Or.inr (Or.inl (List.mem_filter.mpr ⟨hr, h2⟩))
    · exact Or.inr (Or.inr (List.mem_filter.mpr ⟨hr, h3⟩))

/-! ## Engine: `SimulationContext.setup` work-queue traversal
(`ceam/framework/engine.py`, lines 59-86)

Components are modelled by numeric identities (Python's `done` set is keyed
by object identity); an environment maps each identity to its statically
relevant attributes: whether it is an `Iterable` (and of what element
components), whether it has a `setup` method, whether it has a
`configuration_defaults` mapping, and which sub-components its `setup`
call returns. -/

/-- The attributes of one component that `SimulationContext.setup` inspects. -/
structure CompSpec where
  isIterable : Bool
  elems : List ℕ
  hasSetup : Bool
  hasDefaults : Bool
  subs : List ℕ
deriving Repr, DecidableEq

/-- Component environment: attributes by component identity. -/
abbrev Env := ℕ → CompSpec

/-- Observable actions of the setup traversal:
`mergeDefaults c layer` models `config.read_dict(c.configuration_defaults,
layer=..., source=c)`; `setup c i` models `c.setup(builder)` for the
component found at work-list index `i`. -/
inductive SetupEv where
  | mergeDefaults (source : ℕ) (layer : String)
  | setup (c : ℕ) (i : ℕ)
deriving Repr, DecidableEq

/-- Is this event a `setup` call of component `c`? -/
def isSetupOf (c : ℕ) : SetupEv → Bool
  | .setup c' _ => c' = c
  | _ => false

/-- The work-list index carried by a `setup` event. -/
def setupIdx : SetupEv → Option ℕ
  | .setup _ i => some i
  | _ => none

/-- State of the `while i < len(components)` loop in
`SimulationContext.setup`: the growing work list, the cursor `i`, the
`done` set, and the trace of merges and setup calls made so far. -/
structure SetupState where
  components : List ℕ
  i : ℕ
  done : List ℕ
  trace : List SetupEv
deriving Repr, DecidableEq

/-- One iteration of the loop body (only meaningful when
`st.i < st.components.length`): unpack `Iterable` components onto the tail,
then, unless the component is already `done`, merge its
`configuration_defaults` (if any) and call its `setup` (if any), marking it
done and appending any returned sub-components. -/
def setupStep (env : Env) (st : SetupState) : SetupState :=
  match st.components[st.i]? with
  | none => { st with i := st.i + 1 }
  | some c =>
    let comps1 := st.components ++ (if (env c).isIterable then (env c).elems else [])
    if c ∈ st.done then
      { st with components := comps1, i := st.i + 1 }
    else
      let tr1 := st.trace ++
        (if (env c).hasDefaults then [SetupEv.mergeDefaults c "component_configs"] else [])
      if (env c).hasSetup then
        { components := comps1 ++ (env c).subs, i := st.i + 1,
          done := c :: st.done,
          trace := tr1 ++ [SetupEv.setup c st.i] }
      else
        { st with components := comps1, i := st.i + 1, trace := tr1 }

/-- The loop, with explicit fuel (the Python loop terminates only when
components stop adding new work; `none` models exhausting the fuel before
the work list is drained). -/
def setupLoop (env : Env) : ℕ → SetupState → Option SetupState
  | 0, st => if st.i < st.components.length then none else some st
  | fuel + 1, st =>
    if st.i < st.components.length then setupLoop env fuel (setupStep env st)
    else some st

/-- Identity of the `ValuesManager` instance. -/
def valuesId : ℕ := 0
/-- Identity of the `EventManager` instance. -/
def eventsId : ℕ := 1
/-- Identity of the `PopulationManager` instance. -/
def populationId : ℕ := 2
/-- Identity of the `InterpolatedDataManager` instance. -/
def tablesId : ℕ := 3

/-- The four managers, in the order `SimulationContext.setup` prepends them. -/
def managerIds : List ℕ := [valuesId, eventsId, populationId, tablesId]

/-- The initial work list of `SimulationContext.setup`:
`[values, events, population, tables] + list(self.components)`, where
`__init__` has already extended `self.components` with
`[tables, values, events, population]`. -/
def initialWorkList (userComponents : List ℕ) : List ℕ :=
  [valuesId, eventsId, populationId, tablesId] ++ userComponents ++
    [tablesId, valuesId, eventsId, populationId]

/-- `SimulationContext.setup` up to (not including) the manager
finalization calls and the `post_setup` emission. -/
def contextSetup (env : Env) (fuel : ℕ) (userComponents : List ℕ) : Option SetupState :=
  setupLoop env fuel
    { components := initialWorkList userComponents, i := 0, done := [], trace := [] }

/-- Loop invariant of the setup traversal: the `done` set holds exactly the
components whose `setup` has been called; no component's `setup` is called
twice; setup calls happen at strictly increasing work-list indices, all
below the cursor; every `setup` call of a component with
`configuration_defaults` is immediately preceded by the corresponding
configuration merge; every recorded setup index points at its component in
the work list; and every already-processed index holding a component with a
`setup` method has seen that component set up at some index no later than it. -/
def SetupInv (env : Env) (st : SetupState) : Prop :=
  (∀ c, c ∈ st.done ↔ st.trace.countP (isSetupOf c) ≠ 0) ∧
  (∀ c, st.trace.countP (isSetupOf c) ≤ 1) ∧
  (st.trace.filterMap setupIdx).Pairwise (· < ·) ∧
  (∀ p ∈ st.trace.filterMap setupIdx, p < st.i) ∧
  (∀ c, (env c).hasDefaults = true → ∀ i, SetupEv.setup c i ∈ st.trace →
    ∃ l₁ l₂, st.trace =
      l₁ ++ SetupEv.mergeDefaults c "component_configs" :: SetupEv.setup c i :: l₂) ∧
  (∀ c i, SetupEv.setup c i ∈ st.trace → st.components[i]? = some c) ∧
  (∀ j, j < st.i → ∀ c, st.components[j]? = some c → (env c).hasSetup = true →
    ∃ i', i' ≤ j ∧ SetupEv.setup c i' ∈ st.trace)

lemma countP_mergeBlock (c s : ℕ) (b : Bool) (L : String) :
    (if b then [SetupEv.mergeDefaults s L] else []).countP (isSetupOf c) = 0 := by
  cases b <;> simp [isSetupOf]

lemma filterMap_setupIdx_mergeBlock (s : ℕ) (b : Bool) (L : String) :
    (if b then [SetupEv.mergeDefaults s L] else []).filterMap setupIdx = [] := by
  cases b <;> simp [setupIdx]

lemma mem_mergeBlock {ev : SetupEv} {s : ℕ} {b : Bool} {L : String}
    (h : ev ∈ if b then [SetupEv.mergeDefaults s L] else []) :
    ev = SetupEv.mergeDefaults s L := by
  cases b <;> simp_all

lemma setupStep_components (env : Env) (st : SetupState) :
    st.components <+: (setupStep env st).components := by
  unfold setupStep
  cases st.components[st.i]? with
  | none => exact List.prefix_refl _
  | some c =>
    dsimp only
    split_ifs <;> simp [List.append_assoc, List.prefix_append]

lemma setupStep_i (env : Env) (st : SetupState) : (setupStep env st).i = st.i + 1 := by
  unfold setupStep
  cases st.components[st.i]? with
  | none => rfl
  | some c => dsimp only; split_ifs <;> rfl

lemma setupStep_trace (env : Env) (st : SetupState) :
    st.trace <+: (setupStep env st).trace := by
  unfold setupStep
  cases st.components[st.i]? with
  | none => exact List.prefix_refl _
  | some c =>
    dsimp only
    split_ifs <;> simp [List.append_assoc, List.prefix_append]

lemma lt_length_of_getElem?_some {l : List ℕ} {i c : ℕ} (h : l[i]? = some c) :
    i < l.length := by
  by_contra hn
  rw [List.getElem?_eq_none (Nat.le_of_not_lt hn)] at h
  exact Option.noConfusion h

lemma getElem?_append_some {l₁ l₂ : List ℕ} {i c : ℕ} (h : l₁[i]? = some c) :
    (l₁ ++ l₂)[i]? = some c := by
  rw [List.getElem?_append, if_pos (lt_length_of_getElem?_some h)]
  exact h

lemma getElem?_append_inv {l₁ l₂ : List ℕ} {i c : ℕ} (hi : i < l₁.length)
    (h : (l₁ ++ l₂)[i]? = some c) : l₁[i]? = some c := by
  rw [List.getElem?_append, if_pos hi] at h
  exact h

lemma exists_setup_of_countP_ne_zero {c : ℕ} {tr : List SetupEv}
    (h : tr.countP (isSetupOf c) ≠ 0) : ∃ i, SetupEv.setup c i ∈ tr := by
  rcases List.countP_pos_iff.mp (Nat.pos_of_ne_zero h) with ⟨ev, hmem, hp⟩
  cases ev with
  | mergeDefaults s L => simp [isSetupOf] at hp
  | setup c' i =>
    simp only [isSetupOf, decide_eq_true_eq] at hp
    subst hp
    exact ⟨i, hmem⟩

lemma setupIdx_mem {c i : ℕ} {tr : List SetupEv} (h : SetupEv.setup c i ∈ tr) :
    i ∈ tr.filterMap setupIdx :=
  List.mem_filterMap.mpr ⟨SetupEv.setup c i, h, rfl⟩

lemma setupStep_inv (env : Env) (st : SetupState) (h : SetupInv env st) :
    SetupInv env (setupStep env st) := by
  obtain ⟨hdone, hcount, hpair, hlt, hmerge, hidx, hproc⟩ := h
  unfold setupStep
  cases hget : st.components[st.i]? with
  | none =>
    refine ⟨hdone, hcount, hpair, fun p hp => Nat.lt_succ_of_lt (hlt p hp), hmerge, hidx, ?_⟩
    intro j hj c' hc' hs
    rcases Nat.lt_succ_iff_lt_or_eq.mp hj with hj' | hj'
    · exact hproc j hj' c' hc' hs
    · subst hj'
      rw [hget] at hc'
      exact Option.noConfusion hc'
  | some c =>
    have hilen : st.i < st.components.length := lt_length_of_getElem?_some hget
    dsimp only
    by_cases hmem : c ∈ st.done
    · -- component already in `done`: only the work list grows
      rw [if_pos hmem]
      refine ⟨hdone, hcount, hpair, fun p hp => Nat.lt_succ_of_lt (hlt p hp), hmerge, ?_, ?_⟩
      · intro c' i' hin
        exact getElem?_append_some (hidx c' i' hin)
      · intro j hj c' hc' hs
        rcases Nat.lt_succ_iff_lt_or_eq.mp hj with hj' | hj'
        · exact hproc j hj' c' (getElem?_append_inv (lt_trans hj' hilen) hc') hs
        · subst hj'
          have hcc : c' = c := by
            have h2 := getElem?_append_inv hilen hc'
            rw [hget] at h2
            exact (Option.some.inj h2).symm
          subst hcc
          obtain ⟨i'', hi''⟩ := exists_setup_of_countP_ne_zero ((hdone c').mp hmem)
          exact ⟨i'', Nat.le_of_lt (hlt _ (setupIdx_mem hi'')), hi''⟩
    · rw [if_neg hmem]
      by_cases hsetup : (env c).hasSetup = true
      · -- fresh component with a `setup` method
        rw [if_pos hsetup]
        have hc0 : st.trace.countP (isSetupOf c) = 0 := by
          by_contra hne
          exact hmem ((hdone c).mpr hne)
        refine ⟨?_, ?_, ?_, ?_, ?_, ?_, ?_⟩
        · intro c'
          by_cases hcc : c = c'
          · subst hcc
            simp [List.countP_append, countP_mergeBlock, List.countP_cons, isSetupOf]
          · simp only [List.mem_cons, List.countP_append, countP_mergeBlock,
              List.countP_cons, List.countP_nil, isSetupOf]
            simp [hcc, hdone c', Ne.symm hcc]
        · intro c'
          by_cases hcc : c = c'
          · subst hcc
            simp [List.countP_append, countP_mergeBlock, List.countP_cons, isSetupOf, hc0]
          · simp only [List.countP_append, countP_mergeBlock, List.countP_cons,
              List.countP_nil, isSetupOf]
            simp only [decide_eq_true_eq]
            simpa [hcc] using hcount c'
        · rw [List.filterMap_append, List.filterMap_append, filterMap_setupIdx_mergeBlock,
            List.append_nil]
          rw [List.pairwise_append]
          refine ⟨hpair, by simp [setupIdx], ?_⟩
          intro a ha b hb
          simp only [setupIdx, List.filterMap_cons, List.filterMap_nil] at hb
          simp only [List.mem_singleton] at hb
          subst hb
          exact hlt a ha
        · intro p hp
          rw [List.filterMap_append, List.filterMap_append, filterMap_setupIdx_mergeBlock,
            List.append_nil] at hp
          rcases List.mem_append.mp hp with hp | hp
          · exact Nat.lt_succ_of_lt (hlt p hp)
          · simp only [setupIdx, List.filterMap_cons, List.filterMap_nil,
              List.mem_singleton] at hp
            dsimp only
            omega
        · intro c'' hd i'' hin
          rcases List.mem_append.mp hin with hin | hin
          · rcases List.mem_append.mp hin with hin | hin
            · obtain ⟨l₁, l₂, hsplit⟩ := hmerge c'' hd i'' hin
              exact ⟨l₁, l₂ ++ ((if (env c).hasDefaults then
                [SetupEv.mergeDefaults c "component_configs"] else []) ++
                [SetupEv.setup c st.i]), by rw [hsplit]; simp⟩
            · cases mem_mergeBlock hin
          · simp only [List.mem_singleton] at hin
            injection hin with h1 h2
            subst h1; subst h2
            have hdc : (env c'').hasDefaults = true := hd
            refine ⟨st.trace, [], ?_⟩
            rw [hdc]
            simp
        · intro c'' i'' hin
          rcases List.mem_append.mp hin with hin | hin
          · rcases List.mem_append.mp hin with hin | hin
            · exact getElem?_append_some (getElem?_append_some (hidx c'' i'' hin))
            · cases mem_mergeBlock hin
          · simp only [List.mem_singleton] at hin
            injection hin with h1 h2
            subst h1; subst h2
            exact getElem?_append_some (getElem?_append_some hget)
        · intro j hj c' hc' hs
          rcases Nat.lt_succ_iff_lt_or_eq.mp hj with hj' | hj'
          · have hj2 : j < (st.components ++
                (if (env c).isIterable then (env c).elems else [])).length := by
              rw [List.length_append]
              exact Nat.lt_of_lt_of_le (lt_trans hj' hilen) (Nat.le_add_right _ _)
            have h1 := getElem?_append_inv (lt_trans hj' hilen) (getElem?_append_inv hj2 hc')
            obtain ⟨i'', hle, hmem''⟩ := hproc j hj' c' h1 hs
            exact ⟨i'', hle, List.mem_append_left _ (List.mem_append_left _ hmem'')⟩
          · subst hj'
            have hj2 : st.i < (st.components ++
                (if (env c).isIterable then (env c).elems else [])).length := by
              rw [List.length_append]
              exact Nat.lt_of_lt_of_le hilen (Nat.le_add_right _ _)
            have hcc : c' = c := by
              have h2 := getElem?_append_inv hilen (getElem?_append_inv hj2 hc')
              rw [hget] at h2
              exact (Option.some.inj h2).symm
            subst hcc
            exact ⟨st.i, le_refl _, List.mem_append_right _ (List.mem_singleton_self _)⟩
      · -- fresh component without a `setup` method: only defaults may merge
        rw [if_neg hsetup]
        refine ⟨?_, ?_, ?_, fun p hp => ?_, ?_, ?_, ?_⟩
        · intro c'
          rw [List.countP_append, countP_mergeBlock, Nat.add_zero]
          exact hdone c'
        · intro c'
          rw [List.countP_append, countP_mergeBlock, Nat.add_zero]
          exact hcount c'
        · rw [List.filterMap_append, filterMap_setupIdx_mergeBlock, List.append_nil]
          exact hpair
        · rw [List.filterMap_append, filterMap_setupIdx_mergeBlock, List.append_nil] at hp
          exact Nat.lt_succ_of_lt (hlt p hp)
        · intro c'' hd i'' hin
          rcases List.mem_append.mp hin with hin | hin
          · obtain ⟨l₁, l₂, hsplit⟩ := hmerge c'' hd i'' hin
            exact ⟨l₁, l₂ ++ (if (env c).hasDefaults then
              [SetupEv.mergeDefaults c "component_configs"] else []), by rw [hsplit]; simp⟩
          · cases mem_mergeBlock hin
        · intro c'' i'' hin
          rcases List.mem_append.mp hin with hin | hin
          · exact getElem?_append_some (hidx c'' i'' hin)
          · cases mem_mergeBlock hin
        · intro j hj c' hc' hs
          rcases Nat.lt_succ_iff_lt_or_eq.mp hj with hj' | hj'
          · obtain ⟨i'', hle, hmem''⟩ :=
              hproc j hj' c' (getElem?_append_inv (lt_trans hj' hilen) hc') hs
            exact ⟨i'', hle, List.mem_append_left _ hmem''⟩
          · subst hj'
            have hcc : c' = c := by
              have h2 := getElem?_append_inv hilen hc'
              rw [hget] at h2
              exact (Option.some.inj h2).symm
            subst hcc
            exact absurd hs hsetup

lemma setupLoop_inv (env : Env) (fuel : ℕ) :
    ∀ st st', SetupInv env st → setupLoop env fuel st = some st' → SetupInv env st' := by
  induction fuel with
  | zero =>
    intro st st' h hrun
    unfold setupLoop at hrun
    split at hrun
    · exact absurd hrun (by simp)
    · exact Option.some.inj hrun ▸ h
  | succ fuel ih =>
    intro st st' h hrun
    unfold setupLoop at hrun
    split at hrun
    · exact ih _ _ (setupStep_inv env st h) hrun
    · exact Option.some.inj hrun ▸ h

lemma setupLoop_trace_prefix (env : Env) (fuel : ℕ) :
    ∀ st st', setupLoop env fuel st = some st' → st.trace <+: st'.trace := by
  induction fuel with
  | zero =>
    intro st st' hrun
    unfold setupLoop at hrun
    split at hrun
    · exact absurd hrun (by simp)
    · exact Option.some.inj hrun ▸ List.prefix_refl _
  | succ fuel ih =>
    intro st st' hrun
    unfold setupLoop at hrun
    split at hrun
    · exact (setupStep_trace env st).trans (ih _ _ hrun)
    · exact Option.some.inj hrun ▸ List.prefix_refl _

lemma setupLoop_components_prefix (env : Env) (fuel : ℕ) :
    ∀ st st', setupLoop env fuel st = some st' → st.components <+: st'.components := by
  induction fuel with
  | zero =>
    intro st st' hrun
    unfold setupLoop at hrun
    split at hrun
    · exact absurd hrun (by simp)
    · exact Option.some.inj hrun ▸ List.prefix_refl _
  | succ fuel ih =>
    intro st st' hrun
    unfold setupLoop at hrun
    split at hrun
    · exact (setupStep_components env st).trans (ih _ _ hrun)
    · exact Option.some.inj hrun ▸ List.prefix_refl _

lemma setupLoop_final (env : Env) (fuel : ℕ) :
    ∀ st st', setupLoop env fuel st = some st' → st'.components.length ≤ st'.i := by
  induction fuel with
  | zero =>
    intro st st' hrun
    unfold setupLoop at hrun
    split at hrun
    · exact absurd hrun (by simp)
    · rename_i hcond
      exact Option.some.inj hrun ▸ Nat.le_of_not_lt hcond
  | succ fuel ih =>
    intro st st' hrun
    unfold setupLoop at hrun
    split at hrun
    · exact ih _ _ hrun
    · rename_i hcond
      exact Option.some.inj hrun ▸ Nat.le_of_not_lt hcond

lemma setupInv_init (env : Env) (l : List ℕ) :
    SetupInv env { components := l, i := 0, done := [], trace := [] } := by
  refine ⟨?_, ?_, ?_, ?_, ?_, ?_, ?_⟩ <;> simp

/-- **C2.** In the setup traversal (a work-queue over a growing component
list, including self-registered children and duplicated listings): every
component's `setup` is invoked at most once; the `done` set holds exactly
the components whose `setup` call has been made (a component is marked done
in the same loop step in which its `setup` returns, never earlier); setup
calls happen at strictly increasing work-list indices — so components
appended during another component's setup, which land at the tail of the
list, are set up strictly after every component processed before them —
and the initial work list is never reordered, only extended at the tail. -/
theorem setup_traversal_work_queue (env : Env) (fuel : ℕ) (userComponents : List ℕ)
    (st' : SetupState) (h : contextSetup env fuel userComponents = some st') :
    (∀ c, st'.trace.countP (isSetupOf c) ≤ 1) ∧
    (∀ c, c ∈ st'.done ↔ st'.trace.countP (isSetupOf c) ≠ 0) ∧
    (st'.trace.filterMap setupIdx).Pairwise (· < ·) ∧
    (∀ c i, SetupEv.setup c i ∈ st'.trace → st'.components[i]? = some c) ∧
    initialWorkList userComponents <+: st'.components := by
  have hinv := setupLoop_inv env fuel _ st' (setupInv_init env _) h
  obtain ⟨hdone, hcount, hpair, _, _, hidx, _⟩ := hinv
  exact ⟨hcount, hdone, hpair, hidx, setupLoop_components_prefix env fuel _ st' h⟩

/-- A concrete component environment used to witness the setup-traversal
theorems: component 4 is an `Iterable` list holding component 5; component
5 has `configuration_defaults` and its setup registers child component 6;
component 6 is a plain component.  The four managers are components 0-3. -/
def envW : Env := fun c =>
  if c = 4 then { isIterable := true, elems := [5], hasSetup := false,
                  hasDefaults := false, subs := [] }
  else if c = 5 then { isIterable := false, elems := [], hasSetup := true,
                       hasDefaults := true, subs := [6] }
  else { isIterable := false, elems := [], hasSetup := true,
         hasDefaults := false, subs := [] }

/-- The final state of the witness setup traversal. -/
def stW : SetupState :=
  (contextSetup envW 32 [4, 5]).getD { components := [], i := 0, done := [], trace := [] }

/-- Witness for C2: the traversal over user components `[4, 5]` under
`envW` terminates and satisfies the work-queue properties. -/
theorem setup_traversal_work_queue_witness :
    (∀ c, stW.trace.countP (isSetupOf c) ≤ 1) ∧
    (∀ c, c ∈ stW.done ↔ stW.trace.countP (isSetupOf c) ≠ 0) ∧
    (stW.trace.filterMap setupIdx).Pairwise (· < ·) ∧
    (∀ c i, SetupEv.setup c i ∈ stW.trace → stW.components[i]? = some c) ∧
    initialWorkList [4, 5] <+: stW.components :=
  setup_traversal_work_queue envW 32 [4, 5] stW rfl

/-- **C7.** Whenever a component with a `configuration_defaults` mapping
has its `setup` called by the traversal, the merge of those defaults into
the process-wide configuration — in the `component_configs` layer, with the
component itself recorded as source — happens immediately (hence strictly)
before that `setup` call. -/
theorem configuration_defaults_merged_before_setup (env : Env) (fuel : ℕ)
    (userComponents : List ℕ) (st' : SetupState)
    (h : contextSetup env fuel userComponents = some st')
    (c : ℕ) (hd : (env c).hasDefaults = true) (i : ℕ)
    (hin : SetupEv.setup c i ∈ st'.trace) :
    ∃ l₁ l₂, st'.trace =
      l₁ ++ SetupEv.mergeDefaults c "component_configs" :: SetupEv.setup c i :: l₂ := by
  have hinv := setupLoop_inv env fuel _ st' (setupInv_init env _) h
  exact hinv.2.2.2.2.1 c hd i hin

/-- Witness for C7: in the witness traversal, component 5 (which has
`configuration_defaults`) is set up, and its defaults merge immediately
precedes its setup call. -/
theorem configuration_defaults_merged_before_setup_witness :
    ∃ l₁ l₂, stW.trace =
      l₁ ++ SetupEv.mergeDefaults 5 "component_configs" :: SetupEv.setup 5 5 :: l₂ :=
  configuration_defaults_merged_before_setup envW 32 [4, 5] stW rfl 5 (by decide) 5
    (by decide)

/-- **C6.** The four managers (values, events, population, lookup tables),
prepended by `SimulationContext.setup` at work-list indices 0-3, each have
their `setup` called exactly once, at an index below 4, while every other
component's `setup` call happens at an index 4 or greater; since the trace
lists setup calls in strictly increasing index order, every manager's setup
call precedes every supplied component's setup call. -/
theorem managers_setup_before_components (env : Env) (fuel : ℕ)
    (userComponents : List ℕ) (st' : SetupState)
    (h : contextSetup env fuel userComponents = some st')
    (hms : ∀ m ∈ managerIds, (env m).hasSetup = true) :
    (st'.trace.filterMap setupIdx).Pairwise (· < ·) ∧
    (∀ m ∈ managerIds, st'.trace.countP (isSetupOf m) = 1 ∧
      ∃ i, i < 4 ∧ SetupEv.setup m i ∈ st'.trace) ∧
    (∀ c, c ∉ managerIds → ∀ i, SetupEv.setup c i ∈ st'.trace → 4 ≤ i) := by
  have hinv := setupLoop_inv env fuel _ st' (setupInv_init env _) h
  obtain ⟨hdone, hcount, hpair, hlt, hmerge, hidx, hproc⟩ := hinv
  have hpre : initialWorkList userComponents <+: st'.components :=
    setupLoop_components_prefix env fuel _ st' h
  have hfin : st'.components.length ≤ st'.i := setupLoop_final env fuel _ st' h
  obtain ⟨tail, htail⟩ := hpre
  have hlen8 : 8 ≤ (initialWorkList userComponents).length := by
    simp [initialWorkList]
  have hlenc : (initialWorkList userComponents).length ≤ st'.components.length := by
    rw [← htail, List.length_append]
    exact Nat.le_add_right _ _
  refine ⟨hpair, ?_, ?_⟩
  · intro m hm
    have hmlt : m < 4 := by
      fin_cases hm <;> decide
    have hg : (initialWorkList userComponents)[m]? = some m := by
      fin_cases hm <;>
        simp [initialWorkList, valuesId, eventsId, populationId, tablesId]
    have hg' : st'.components[m]? = some m := by
      rw [← htail]
      exact getElem?_append_some hg
    have hmi : m < st'.i := by omega
    obtain ⟨i', hile, hev⟩ := hproc m hmi m hg' (hms m hm)
    have hpos : 0 < st'.trace.countP (isSetupOf m) :=
      List.countP_pos_iff.mpr ⟨SetupEv.setup m i', hev, by simp [isSetupOf]⟩
    exact ⟨Nat.le_antisymm (hcount m) hpos, i', by omega, hev⟩
  · intro c hc i hin
    by_contra h4
    push_neg at h4
    have hci : st'.components[i]? = some c := hidx c i hin
    rw [← htail] at hci
    have hil : (initialWorkList userComponents)[i]? = some c :=
      getElem?_append_inv (by omega) hci
    interval_cases i
    · have hv : (initialWorkList userComponents)[(0 : ℕ)]? = some valuesId := by
        simp [initialWorkList]
      rw [hv] at hil
      exact hc (Option.some.inj hil ▸ (by decide : valuesId ∈ managerIds))
    · have hv : (initialWorkList userComponents)[(1 : ℕ)]? = some eventsId := by
        simp [initialWorkList]
      rw [hv] at hil
      exact hc (Option.some.inj hil ▸ (by decide : eventsId ∈ managerIds))
    · have hv : (initialWorkList userComponents)[(2 : ℕ)]? = some populationId := by
        simp [initialWorkList]
      rw [hv] at hil
      exact hc (Option.some.inj hil ▸ (by decide : populationId ∈ managerIds))
    · have hv : (initialWorkList userComponents)[(3 : ℕ)]? = some tablesId := by
        simp [initialWorkList]
      rw [hv] at hil
      exact hc (Option.some.inj hil ▸ (by decide : tablesId ∈ managerIds))

/-- Witness for C6 at the concrete environment `envW` and user components
`[4, 5]`. -/
theorem managers_setup_before_components_witness :
    (stW.trace.filterMap setupIdx).Pairwise (· < ·) ∧
    (∀ m ∈ managerIds, stW.trace.countP (isSetupOf m) = 1 ∧
      ∃ i, i < 4 ∧ SetupEv.setup m i ∈ stW.trace) ∧
    (∀ c, c ∉ managerIds → ∀ i, SetupEv.setup c i ∈ stW.trace → 4 ≤ i) :=
  managers_setup_before_components envW 32 [4, 5] stW rfl (by decide)

/-! ## Engine: `_step` and `event_loop`
(`ceam/framework/engine.py`, lines 88-122)

The simulation clock (`datetime` values advanced by a `timedelta` of
`time_step` days) is modelled as an integer day count; the population index
(`simulation.population.population.index`) as a list of simulant ids. -/

/-- Channel events emitted by the engine during a run. -/
inductive Ev where
  | postSetup
  | createSimulants (n : ℕ)
  | timeStepPrepare (idx : List ℕ)
  | timeStep (idx : List ℕ)
  | timeStepCleanup (idx : List ℕ)
  | simulationEnd (idx : List ℕ)
deriving Repr, DecidableEq

/-- Mutable simulation state read by `_step`: the clock and the population
index. -/
structure SimState where
  current_time : ℤ
  popIndex : List ℕ
deriving Repr, DecidableEq

/-- `_step(simulation, time_step)`: emit `time_step__prepare`, `time_step`,
`time_step__cleanup`, each carrying the current population index, then
advance `simulation.current_time` by `time_step`. -/
def _step (s : SimState) (time_step : ℤ) : List Ev × SimState :=
  ([Ev.timeStepPrepare s.popIndex, Ev.timeStep s.popIndex, Ev.timeStepCleanup s.popIndex],
   { s with current_time := s.current_time + time_step })

/-- The `while simulation.current_time < stop: _step(simulation, time_step)`
loop of `event_loop`, with fuel (the Python loop does not terminate when
`time_step ≤ 0`). -/
def tickLoop (stop time_step : ℤ) : ℕ → SimState → Option (List Ev × SimState)
  | 0, s => if s.current_time < stop then none else some ([], s)
  | fuel + 1, s =>
    if s.current_time < stop then
      match tickLoop stop time_step fuel (_step s time_step).2 with
      | none => none
      | some (evs', s'') => some ((_step s time_step).1 ++ evs', s'')
    else some ([], s)

/-- `event_loop(simulation)`: set the clock to `start`, create the initial
cohort of `population_size` simulants through the registered
simulant-creation callback, run the tick loop until the clock reaches
`stop`, then emit `simulation_end` carrying the final population index. -/
def event_loop (start stop time_step : ℤ) (population_size : ℕ) (fuel : ℕ) :
    Option (List Ev × SimState) :=
  match tickLoop stop time_step fuel
      { current_time := start, popIndex := List.range population_size } with
  | none => none
  | some (evs, s') =>
    some (Ev.createSimulants population_size :: (evs ++ [Ev.simulationEnd s'.popIndex]), s')

/-- The channel events of a full run: `SimulationContext.setup` emits
`post_setup` once at its end (the traversal itself emits no channel events,
and the `post_setup` emitter injected into `event_loop` by its decorator is
never invoked), then `run_simulation` calls `event_loop`. -/
def fullRunEvents (start stop time_step : ℤ) (population_size : ℕ) (fuel : ℕ) :
    Option (List Ev × SimState) :=
  match event_loop start stop time_step population_size fuel with
  | none => none
  | some (evs, s') => some (Ev.postSetup :: evs, s')

/-- The three lifecycle events of one tick, in emission order. -/
def tickBlock (idx : List ℕ) : List Ev :=
  [Ev.timeStepPrepare idx, Ev.timeStep idx, Ev.timeStepCleanup idx]

lemma tickLoop_spec (stop time_step : ℤ) (fuel : ℕ) :
    ∀ s evs s', tickLoop stop time_step fuel s = some (evs, s') →
      ∃ n : ℕ, evs = List.flatten (List.replicate n (tickBlock s.popIndex)) ∧
        s'.popIndex = s.popIndex ∧
        s'.current_time = s.current_time + n * time_step ∧
        (∀ k : ℕ, k < n → s.current_time + k * time_step < stop) ∧
        ¬ s'.current_time < stop := by
  induction fuel with
  | zero =>
    intro s evs s' h
    unfold tickLoop at h
    split at h
    · exact absurd h (by simp)
    · rename_i hstop
      obtain ⟨he, hs⟩ := Prod.mk.injEq .. ▸ Option.some.inj h
      subst he
      subst hs
      exact ⟨0, by simp, rfl, by simp, by simp, hstop⟩
  | succ fuel ih =>
    intro s evs s' h
    unfold tickLoop at h
    split at h
    · rename_i hstop
      cases hrec : tickLoop stop time_step fuel (_step s time_step).2 with
      | none => rw [hrec] at h; exact absurd h (by simp)
      | some p =>
        obtain ⟨evs', s''⟩ := p
        rw [hrec] at h
        obtain ⟨he, hs⟩ := Prod.mk.injEq .. ▸ Option.some.inj h
        subst he
        subst hs
        obtain ⟨n, hevs, hpop, htime, hticks, hstop'⟩ := ih _ _ _ hrec
        refine ⟨n + 1, ?_, ?_, ?_, ?_, hstop'⟩
        · rw [hevs]
          simp only [_step, List.replicate_succ, List.flatten_cons, tickBlock]
        · simpa [_step] using hpop
        · rw [htime]
          simp only [_step]
          push_cast
          ring
        · intro k hk
          cases k with
          | zero => simpa using hstop
          | succ j =>
            have hj := hticks j (by omega)
            simp only [_step] at hj
            have : s.current_time + (↑(j + 1)) * time_step =
                s.current_time + time_step + ↑j * time_step := by
              push_cast
              ring
            rw [this]
            exact hj
    · rename_i hstop
      obtain ⟨he, hs⟩ := Prod.mk.injEq .. ▸ Option.some.inj h
      subst he
      subst hs
      exact ⟨0, by simp, rfl, by simp, by simp, hstop⟩

/-- **C1.** `_step` emits exactly the three lifecycle events
`time_step__prepare`, `time_step`, `time_step__cleanup`, in that fixed
order, each carrying the current population index, and then advances the
clock by exactly one time step; the driving loop executes tick `k` if and
only if the clock value `start + k·time_step` before it is strictly below
`stop`, and stops as soon as the clock is at or past `stop` — so the final
tick may carry the clock past `stop`. -/
theorem step_emits_three_events_loop_boundary (s : SimState) (stop time_step : ℤ)
    (fuel : ℕ) (evs : List Ev) (s' : SimState)
    (h : tickLoop stop time_step fuel s = some (evs, s')) :
    ((_step s time_step).1 =
        [Ev.timeStepPrepare s.popIndex, Ev.timeStep s.popIndex,
          Ev.timeStepCleanup s.popIndex] ∧
      (_step s time_step).2.current_time = s.current_time + time_step ∧
      (_step s time_step).2.popIndex = s.popIndex) ∧
    ∃ n : ℕ, evs = List.flatten (List.replicate n (tickBlock s.popIndex)) ∧
      s'.current_time = s.current_time + n * time_step ∧
      (∀ k : ℕ, k < n → s.current_time + k * time_step < stop) ∧
      ¬ s'.current_time < stop := by
  obtain ⟨n, hevs, _, htime, hticks, hstop⟩ := tickLoop_spec stop time_step fuel s evs s' h
  exact ⟨⟨rfl, rfl, rfl⟩, n, hevs, htime, hticks, hstop⟩

/-- The concrete tick-loop run used to witness C1: day 0 to stop 10 with a
3-day step. -/
def tickW : List Ev × SimState :=
  (tickLoop 10 3 9 { current_time := 0, popIndex := List.range 2 }).getD
    ([], { current_time := 0, popIndex := [] })

/-- Witness for C1: from day 0 with stop at day 10 and a 3-day step, the
loop runs 4 ticks (0, 3, 6, 9 are all below 10) and the final tick carries
the clock to 12, past stop. -/
theorem step_emits_three_events_loop_boundary_witness :
    ((_step { current_time := 0, popIndex := List.range 2 } 3).1 =
        [Ev.timeStepPrepare (List.range 2), Ev.timeStep (List.range 2),
          Ev.timeStepCleanup (List.range 2)] ∧
      (_step { current_time := 0, popIndex := List.range 2 } 3).2.current_time = 0 + 3 ∧
      (_step { current_time := 0, popIndex := List.range 2 } 3).2.popIndex = List.range 2) ∧
    ∃ n : ℕ,
      tickW.1 = List.flatten (List.replicate n (tickBlock (List.range 2))) ∧
      tickW.2.current_time = 0 + n * 3 ∧
      (∀ k : ℕ, k < n → (0 : ℤ) + k * 3 < 10) ∧
      ¬ tickW.2.current_time < 10 :=
  step_emits_three_events_loop_boundary { current_time := 0, popIndex := List.range 2 }
    10 3 9 tickW.1 tickW.2 rfl

lemma mem_flatten_replicate {α : Type} {a : α} {n : ℕ} {b : List α}
    (h : a ∈ List.flatten (List.replicate n b)) : a ∈ b := by
  rcases List.mem_flatten.mp h with ⟨l, hl, hal⟩
  rw [List.eq_of_mem_replicate hl] at hal
  exact hal

/-- **C5.** In every terminating run: `post_setup` is emitted exactly once,
before any tick event; the initial cohort of the configured population size
is created exactly once, through the simulant-creation callback, after
setup (hence after `post_setup`) and before the first tick; and
`simulation_end` is emitted exactly once, after the last tick, carrying the
final population index. -/
theorem run_lifecycle_once (start stop time_step : ℤ) (population_size fuel : ℕ)
    (trace : List Ev) (sF : SimState)
    (h : fullRunEvents start stop time_step population_size fuel = some (trace, sF)) :
    sF.popIndex = List.range population_size ∧
    ∃ body : List Ev,
      trace = Ev.postSetup :: Ev.createSimulants population_size ::
        (body ++ [Ev.simulationEnd sF.popIndex]) ∧
      (∀ ev ∈ body, ev = Ev.timeStepPrepare sF.popIndex ∨ ev = Ev.timeStep sF.popIndex ∨
        ev = Ev.timeStepCleanup sF.popIndex) ∧
      trace.count Ev.postSetup = 1 ∧
      trace.count (Ev.createSimulants population_size) = 1 ∧
      trace.count (Ev.simulationEnd sF.popIndex) = 1 := by
  unfold fullRunEvents event_loop at h
  cases hrec : tickLoop stop time_step fuel
      { current_time := start, popIndex := List.range population_size } with
  | none => rw [hrec] at h; exact absurd h (by simp)
  | some p =>
    obtain ⟨evs, s'⟩ := p
    rw [hrec] at h
    simp only at h
    obtain ⟨he, hs⟩ := Prod.mk.injEq .. ▸ Option.some.inj h
    subst hs
    obtain ⟨n, hevs, hpop, _, _, _⟩ := tickLoop_spec _ _ _ _ _ _ hrec
    simp only at hpop
    subst he
    have hmem : ∀ ev ∈ evs, ev = Ev.timeStepPrepare s'.popIndex ∨
        ev = Ev.timeStep s'.popIndex ∨ ev = Ev.timeStepCleanup s'.popIndex := by
      intro ev hev
      rw [hevs] at hev
      have hb := mem_flatten_replicate hev
      simp only [tickBlock, List.mem_cons, List.mem_singleton] at hb
      rw [hpop]
      simpa using hb
    refine ⟨hpop, evs, rfl, hmem, ?_, ?_, ?_⟩
    · have h0 : evs.count Ev.postSetup = 0 := by
        rw [List.count_eq_zero]
        intro hc
        rcases hmem _ hc with h' | h' | h' <;> exact Ev.noConfusion h'
      simp [List.count_cons, List.count_append, h0]
    · have h0 : evs.count (Ev.createSimulants population_size) = 0 := by
        rw [List.count_eq_zero]
        intro hc
        rcases hmem _ hc with h' | h' | h' <;> exact Ev.noConfusion h'
      simp [List.count_cons, List.count_append, h0]
    · have h0 : evs.count (Ev.simulationEnd s'.popIndex) = 0 := by
        rw [List.count_eq_zero]
        intro hc
        rcases hmem _ hc with h' | h' | h' <;> exact Ev.noConfusion h'
      simp [List.count_cons, List.count_append, h0]

/-- The concrete full run used to witness C5. -/
def runW : List Ev × SimState :=
  (fullRunEvents 0 10 3 2 9).getD ([], { current_time := 0, popIndex := [] })

/-- Witness for C5 at the concrete run from day 0 to stop 10 with a 3-day
step and two simulants. -/
theorem run_lifecycle_once_witness :
    runW.2.popIndex = List.range 2 ∧
    ∃ body : List Ev,
      runW.1 = Ev.postSetup :: Ev.createSimulants 2 ::
        (body ++ [Ev.simulationEnd runW.2.popIndex]) ∧
      (∀ ev ∈ body, ev = Ev.timeStepPrepare runW.2.popIndex ∨
        ev = Ev.timeStep runW.2.popIndex ∨ ev = Ev.timeStepCleanup runW.2.popIndex) ∧
      runW.1.count Ev.postSetup = 1 ∧
      runW.1.count (Ev.createSimulants 2) = 1 ∧
      runW.1.count (Ev.simulationEnd runW.2.popIndex) = 1 :=
  run_lifecycle_once 0 10 3 2 9 runW.1 runW.2 rfl

/-! ## Values pipeline and `run_simulation` / `run`
(`ceam/framework/engine.py`, lines 133-158)

`ceam/framework/values.py` is not in the repository snapshot; the pipeline
structure below is modelled from the spec (section 4.4).  Wall-clock time
(`time() - start` in `run_simulation`) is an explicit input. -/

/-- A metrics mapping (a Python `dict` from metric name to number) as an
association list with each key occurring at most once. -/
abbrev Metrics := List (String × ℚ)

/-- Dict assignment `m[k] = v`: replace the entry in place when the key is
present, append it when absent — Python `dict` update semantics. -/
def insertMetric : Metrics → String → ℚ → Metrics
  | [], k, v => [(k, v)]
  | (k', v') :: rest, k, v =>
    if k' = k then (k, v) :: rest else (k', v') :: insertMetric rest k v

/-- Dict lookup `m.get(k)`. -/
def getMetric : Metrics → String → Option ℚ
  | [], _ => none
  | (k', v) :: rest, k => if k' = k then some v else getMetric rest k

/-- Modelled from the spec: `ceam/framework/values.py` is missing from the
snapshot.  Per the spec's value-pipeline contract, a pipeline holds at most
one `source` (the base computation over a simulant index) and an ordered
list of mutators, each transforming the running value. -/
structure Pipeline where
  source : Option (List ℕ → Metrics)
  mutators : List (List ℕ → Metrics → Metrics)

/-- Modelled from the spec: evaluating a pipeline at an index invokes the
source, folds the mutators over the running value, and fails with the
"no source registered" error when no source is declared. -/
def evalPipeline (p : Pipeline) (index : List ℕ) : Option Metrics :=
  match p.source with
  | none => none
  | some src => some (p.mutators.foldl (fun acc f => f index acc) (src index))

/-- `run_simulation(simulation)` after `event_loop` has returned: fetch the
`metrics` pipeline, assign `metrics.source = lambda index: {}`
(unconditionally), evaluate the pipeline over the final population index,
then record the wall-clock duration under `simulation_run_time`. -/
def run_simulation (metricsPipeline : Pipeline) (finalIndex : List ℕ)
    (wall_clock_run_time : ℚ) : Metrics :=
  insertMetric
    ((evalPipeline { metricsPipeline with source := some (fun _ => []) } finalIndex).getD [])
    "simulation_run_time" wall_clock_run_time

/-- `run_simulation` including the `event_loop` call that precedes the
metrics evaluation; the final population index is the loop's final state's. -/
def run_simulation_full (metricsPipeline : Pipeline) (start stop time_step : ℤ)
    (population_size fuel : ℕ) (wall_clock_run_time : ℚ) : Option Metrics :=
  match event_loop start stop time_step population_size fuel with
  | none => none
  | some (_, sF) => some (run_simulation metricsPipeline sF.popIndex wall_clock_run_time)

/-- `run(component_config)`: run the simulation, then add the draw number
under `draw`. -/
def run (metricsPipeline : Pipeline) (start stop time_step : ℤ)
    (population_size fuel : ℕ) (wall_clock_run_time draw_number : ℚ) : Option Metrics :=
  match run_simulation_full metricsPipeline start stop time_step population_size fuel
      wall_clock_run_time with
  | none => none
  | some metrics => some (insertMetric metrics "draw" draw_number)

lemma getMetric_insert (m : Metrics) (k k' : String) (v : ℚ) :
    getMetric (insertMetric m k' v) k = if k = k' then some v else getMetric m k := by
  induction m with
  | nil =>
    by_cases h : k = k' <;> simp [insertMetric, getMetric, h, eq_comm]
  | cons a rest ih =>
    obtain ⟨ka, va⟩ := a
    by_cases h1 : ka = k'
    · subst h1
      by_cases h2 : k = ka <;> simp [insertMetric, getMetric, h2, eq_comm]
    · by_cases h2 : ka = k
      · subst h2
        have hkk : ¬ ka = k' := h1
        simp [insertMetric, getMetric, h1, hkk, Ne.symm h1]
      · simp [insertMetric, getMetric, h1, h2, ih]

/-- **C3 (amended).** The run result is the `metrics` pipeline evaluated
over the final population index, with the pipeline's source
*unconditionally* replaced by the empty mapping just before evaluation —
even when a source had been contributed — so the result is the mutators
folded over the empty mapping, merged with the wall-clock run time (added
by `run_simulation` under `simulation_run_time`) and the draw number (added
by `run` under `draw`). -/
theorem run_metrics_result (p : Pipeline) (start stop time_step : ℤ)
    (population_size fuel : ℕ) (w d : ℚ) (evs : List Ev) (sF : SimState)
    (h : event_loop start stop time_step population_size fuel = some (evs, sF)) :
    run p start stop time_step population_size fuel w d =
      some (insertMetric (insertMetric
        (p.mutators.foldl (fun acc f => f sF.popIndex acc) [])
        "simulation_run_time" w) "draw" d) := by
  unfold run run_simulation_full
  rw [h]
  simp [run_simulation, evalPipeline]

/-- Counterexample to C3 as stated: a pipeline whose source *was*
contributed (it returns `{"x": 1}`) is still evaluated from the empty
mapping — `run_simulation` overwrites the contributed source, not only a
missing one, so the result drops the source's `"x"` entry. -/
theorem run_simulation_overwrites_contributed_source :
    run_simulation { source := some (fun _ => [("x", 1)]), mutators := [] } [0] 2 =
      [("simulation_run_time", 2)] ∧
    run_simulation { source := some (fun _ => [("x", 1)]), mutators := [] } [0] 2 ≠
      insertMetric [("x", 1)] "simulation_run_time" 2 := by
  constructor
  · rfl
  · decide

/-- The pipeline used by the run-metrics witnesses: a contributed source
(overwritten by `run_simulation`) and one mutator adding a `deaths` count. -/
def pW : Pipeline :=
  { source := some (fun _ => [("x", 1)]),
    mutators := [fun _ acc => insertMetric acc "deaths" 7] }

/-- The concrete `event_loop` run backing the run-metrics witnesses. -/
def loopW : List Ev × SimState :=
  (event_loop 0 10 3 2 9).getD ([], { current_time := 0, popIndex := [] })

/-- Witness for C3 (amended) at a concrete terminating run. -/
theorem run_metrics_result_witness :
    run pW 0 10 3 2 9 5 3 =
      some (insertMetric (insertMetric
        (pW.mutators.foldl (fun acc f => f loopW.2.popIndex acc) [])
        "simulation_run_time" 5) "draw" 3) :=
  run_metrics_result pW 0 10 3 2 9 5 3 loopW.1 loopW.2 rfl

/-- **C4 (amended).** Two executions of `run_simulation` with identical
draw number and configuration produce metrics mappings that agree on every
key other than `simulation_run_time` (which records each execution's own
wall-clock duration), and are bit-identical whenever the wall-clock
durations also coincide. -/
theorem run_simulation_deterministic (p : Pipeline) (start stop time_step : ℤ)
    (population_size fuel : ℕ) (w₁ w₂ : ℚ) (m₁ m₂ : Metrics)
    (h₁ : run_simulation_full p start stop time_step population_size fuel w₁ = some m₁)
    (h₂ : run_simulation_full p start stop time_step population_size fuel w₂ = some m₂) :
    (∀ k : String, k ≠ "simulation_run_time" → getMetric m₁ k = getMetric m₂ k) ∧
    (w₁ = w₂ → m₁ = m₂) := by
  unfold run_simulation_full at h₁ h₂
  cases hel : event_loop start stop time_step population_size fuel with
  | none => rw [hel] at h₁; exact absurd h₁ (by simp)
  | some q =>
    obtain ⟨evs, sF⟩ := q
    rw [hel] at h₁ h₂
    simp only at h₁ h₂
    have hm₁ := (Option.some.inj h₁).symm
    have hm₂ := (Option.some.inj h₂).symm
    subst hm₁
    subst hm₂
    constructor
    · intro k hk
      unfold run_simulation
      rw [getMetric_insert, getMetric_insert, if_neg hk, if_neg hk]
    · intro hw
      rw [hw]

/-- Counterexample to C4 as stated: two independent executions of
`run_simulation` with the same pipeline, final index, draw and
configuration, but different wall-clock durations (0 vs 1 seconds), give
mappings differing at `simulation_run_time` — not bit-identical. -/
theorem run_simulation_not_bit_identical :
    run_simulation { source := none, mutators := [] } [] 0 ≠
      run_simulation { source := none, mutators := [] } [] 1 := by
  decide

/-- The two concrete runs backing the C4 witness: identical configuration
and draw, wall-clock durations 0 and 1. -/
def metricsW1 : Metrics := (run_simulation_full pW 0 10 3 2 9 0).getD []

/-- Second run of the C4 witness (wall-clock duration 1). -/
def metricsW2 : Metrics := (run_simulation_full pW 0 10 3 2 9 1).getD []

/-- Witness for C4 (amended) at two concrete runs. -/
theorem run_simulation_deterministic_witness :
    (∀ k : String, k ≠ "simulation_run_time" →
      getMetric metricsW1 k = getMetric metricsW2 k) ∧
    ((0 : ℚ) = 1 → metricsW1 = metricsW2) :=
  run_simulation_deterministic pW 0 10 3 2 9 0 1 metricsW1 metricsW2 rfl rfl

/-! ## Interpolated lookup tables
(`src/tests/framework/test_lookup.py`)

The implementation (`ceam/framework/lookup.py` and the interpolation it
delegates to) is not in the repository snapshot; the definitions below are
modelled from the spec. -/

/-- Modelled from the spec: `ceam/framework/lookup.py` is missing from the
snapshot.  One-dimensional piecewise-linear interpolation over `(coordinate,
value)` points listed in increasing coordinate order: order-0 (the single
value) on a one-point axis, and queries beyond the observed min/max clamp
to the boundary value. -/
def interpFrom : (ℚ × ℚ) → List (ℚ × ℚ) → ℚ → ℚ
  | (_, v₀), [], _ => v₀
  | (x₀, v₀), (x₁, v₁) :: rest, t =>
    if t ≤ x₀ then v₀
    else if t ≤ x₁ then v₀ + (v₁ - v₀) * (t - x₀) / (x₁ - x₀)
    else interpFrom (x₁, v₁) rest t

/-- Interpolate a full point list (empty list defaults to 0; it never
arises for a built table). -/
def interp : List (ℚ × ℚ) → ℚ → ℚ
  | [], _ => 0
  | p :: tail, t => interpFrom p tail t

/-- Modelled from the spec: tensor-product multilinear interpolation over
the parameter axes within one key bucket — interpolate along the `age` axis
the values obtained by interpolating each age row along `year`. -/
def interp2 (ageGrid yearGrid : List ℚ) (v : ℚ → ℚ → ℚ) (a t : ℚ) : ℚ :=
  interp (ageGrid.map (fun ai => (ai, interp (yearGrid.map (fun yj => (yj, v ai yj))) t))) a

/-- Modelled from the spec: a built table resolves a simulant's key bucket
(`sex`) by exact match, then interpolates that bucket's `(age, year)`
sub-table at the simulant's age and the query time. -/
def tableQuery (data : String → ℚ → ℚ → ℚ) (ageGrid yearGrid : List ℚ)
    (sex : String) (age t : ℚ) : ℚ :=
  interp2 ageGrid yearGrid (data sex) age t

/-- The reference test's dataset,
`build_table(lambda age, sex, year: year, ...)`: the value stored at
`(age, sex, year)` is `year`. -/
def yearData : String → ℚ → ℚ → ℚ := fun _ _ y => y

/-- The fractional-year transform of the simulation clock:
`year + day_of_year/365.25`. -/
def fractionalYear (year : ℤ) (day_of_year : ℕ) : ℚ :=
  (year : ℚ) + (day_of_year : ℚ) / (1461 / 4)

lemma interpFrom_const (c t : ℚ) :
    ∀ (x : ℚ) (xs : List ℚ),
      interpFrom (x, c) (xs.map (fun z => (z, c))) t = c
  | _, [] => by simp [interpFrom]
  | x, x₁ :: rest => by
    simp only [List.map_cons, interpFrom]
    split_ifs with h1 h2
    · rfl
    · simp
    · exact interpFrom_const c t x₁ rest

lemma interp_const (c t : ℚ) :
    ∀ xs : List ℚ, xs ≠ [] → interp (xs.map (fun x => (x, c))) t = c
  | [], h => absurd rfl h
  | x :: xs, _ => by
    simp only [List.map_cons, interp]
    exact interpFrom_const c t x xs

lemma interpFrom_id (t : ℚ) :
    ∀ (x : ℚ) (xs : List ℚ), (x :: xs).Chain' (· < ·) → x ≤ t →
      t ≤ (x :: xs).getLast (List.cons_ne_nil x xs) →
      interpFrom (x, x) (xs.map (fun y => (y, y))) t = t
  | x, [], _, hlo, hhi => by
    simp only [List.map_nil, interpFrom]
    have hx : (x :: ([] : List ℚ)).getLast (List.cons_ne_nil x []) = x := rfl
    rw [hx] at hhi
    exact (le_antisymm hhi hlo).symm
  | x, x₁ :: rest, hchain, hlo, hhi => by
    rw [List.chain'_cons] at hchain
    obtain ⟨hx01, hchain'⟩ := hchain
    have hhi' : t ≤ (x₁ :: rest).getLast (List.cons_ne_nil x₁ rest) := by
      rw [← List.getLast_cons (List.cons_ne_nil x₁ rest)]
      exact hhi
    simp only [List.map_cons, interpFrom]
    split_ifs with h1 h2
    · exact (le_antisymm h1 hlo).symm
    · have hne : x₁ - x ≠ 0 := sub_ne_zero.mpr (ne_of_gt hx01)
      field_simp
    · have hx1t : x₁ ≤ t := le_of_lt (lt_of_not_le h2)
      have := interpFrom_id t x₁ rest hchain' hx1t hhi'
      simpa using this

lemma interp_id (t : ℚ) (x : ℚ) (xs : List ℚ) (hchain : (x :: xs).Chain' (· < ·))
    (hlo : x ≤ t) (hhi : t ≤ (x :: xs).getLast (List.cons_ne_nil x xs)) :
    interp ((x :: xs).map (fun y => (y, y))) t = t := by
  simp only [List.map_cons, interp]
  exact interpFrom_id t x xs hchain hlo hhi

/-- **C8 (amended).** For a table built from the dataset mapping
`(age, sex, year) ↦ year` (strictly increasing year grid, nonempty age
grid), querying any simulant — independent of its age and sex — at a
simulation time whose fractional year `year + day_of_year/365.25` lies
within the dataset's observed year range returns exactly that fractional
year of the current clock.  (Beyond the observed range the query clamps to
the boundary value.) -/
theorem interpolated_year_table_query (ageGrid : List ℚ) (y : ℚ) (ys : List ℚ)
    (hage : ageGrid ≠ []) (hchain : (y :: ys).Chain' (· < ·))
    (sex : String) (a : ℚ) (year : ℤ) (day_of_year : ℕ)
    (hlo : y ≤ fractionalYear year day_of_year)
    (hhi : fractionalYear year day_of_year ≤ (y :: ys).getLast (List.cons_ne_nil y ys)) :
    tableQuery yearData ageGrid (y :: ys) sex a (fractionalYear year day_of_year) =
      fractionalYear year day_of_year := by
  unfold tableQuery interp2 yearData
  have hfn : (fun ai : ℚ =>
      (ai, interp ((y :: ys).map (fun yj => (yj, yj))) (fractionalYear year day_of_year))) =
      fun ai : ℚ => (ai, fractionalYear year day_of_year) := by
    funext ai
    rw [interp_id _ y ys hchain hlo hhi]
  rw [hfn]
  exact interp_const _ _ ageGrid hage

/-- Counterexample to C8 as stated ("at any simulation time"): with the
observed year grid 2010-2011, a query at fractional year 2015 clamps to
the boundary value 2011 instead of returning the clock's fractional year. -/
theorem interpolated_year_table_clamps_beyond_range :
    tableQuery yearData [20, 40] [2010, 2011] "Male" 30 (fractionalYear 2015 0) ≠
      fractionalYear 2015 0 ∧
    tableQuery yearData [20, 40] [2010, 2011] "Male" 30 (fractionalYear 2015 0) = 2011 := by
  constructor
  · norm_num [tableQuery, interp2, yearData, interp, interpFrom, fractionalYear]
  · norm_num [tableQuery, interp2, yearData, interp, interpFrom, fractionalYear]

/-- Witness for C8 (amended): ages 20 and 40, years 2010-2012, clock at
day 200 of 2010; every simulant's query returns `2010 + 200/365.25`. -/
theorem interpolated_year_table_query_witness :
    tableQuery yearData [20, 40] [2010, 2011, 2012] "Female" 27
        (fractionalYear 2010 200) = fractionalYear 2010 200 :=
  interpolated_year_table_query [20, 40] 2010 [2011, 2012] (by simp)
    (by norm_num) "Female" 27 2010 200 (by norm_num [fractionalYear])
    (by norm_num [fractionalYear, List.getLast])

end Vivarium
